import Mathlib

/-!
# Verification of the hs-train-scraping core

Shallow embedding of the repository's core logic:

* `common/dates.py` — string/date conversions and date arithmetic
  (`string_date_to_date_object`, `date_object_to_string_date`,
  `add_days_to_date`);
* `round_trips_finder/main.py` — `load_trains`,
  `possible_train_combinations`, `select_cheapest`;
* `common/existing_output.py` — `initialize_output_file`,
  `discard_existing_services`, `load_services_to_request`;
* `common/remaining_time.py` — `print_remaining_time`;
* `common/write_missing_services.py` and the orchestrator loop of
  `AVLO/main.py`.

Python strings are modelled as Lean `String`; Python `dict` as an
insertion-ordered association list with Python update semantics; file
contents as explicit lists of parsed records; prices as `ℚ` (the inputs
the matcher handles are exact decimals).
-/

namespace HsTrain

/-! ## Decimal strings: models of Python `str(int)` and `int(str)` -/

/-- The character for a single decimal digit, as produced by Python
`str` on integers (digits other than 0–9 do not occur). -/
def digitChar (d : ℕ) : Char :=
  match d with
  | 0 => '0' | 1 => '1' | 2 => '2' | 3 => '3' | 4 => '4'
  | 5 => '5' | 6 => '6' | 7 => '7' | 8 => '8' | 9 => '9'
  | _ => '*'

/-- Numeric value of a decimal digit character. -/
def digitVal (c : Char) : ℕ := c.toNat - 48

/-- Whether a character is a decimal digit `0`–`9`. -/
def isDigitChar (c : Char) : Bool := 48 ≤ c.toNat && c.toNat ≤ 57

/-- Digit extraction with explicit fuel (any fuel above `n` computes
the digit list of `n`; the fuel only makes the recursion structural). -/
def natToDigitsAux (fuel : ℕ) (n : ℕ) : List Char :=
  match fuel with
  | 0 => []
  | fuel + 1 =>
      if n < 10 then [digitChar n]
      else natToDigitsAux fuel (n / 10) ++ [digitChar (n % 10)]

/-- The decimal digit list of a natural number, most significant digit
first: the character content of Python `str(n)` for `n ≥ 0`. -/
def natToDigits (n : ℕ) : List Char := natToDigitsAux (n + 1) n

/-- Model of Python `str` on a nonnegative integer. -/
def natToStr (n : ℕ) : String := ⟨natToDigits n⟩

/-- Model of Python `str.zfill`: pad on the left with `'0'` up to
width `w`. -/
def zfill (s : String) (w : ℕ) : String :=
  ⟨List.replicate (w - s.length) '0' ++ s.data⟩

/-- Left fold accumulating the value of a decimal digit string;
`none` as soon as a non-digit character is met. -/
def foldDigits (acc : ℕ) : List Char → Option ℕ
  | [] => some acc
  | c :: cs => if isDigitChar c then foldDigits (acc * 10 + digitVal c) cs else none

/-- Value of a nonempty all-digit character list; `none` otherwise. -/
def listIntVal (l : List Char) : Option ℕ :=
  match l with
  | [] => none
  | _ => foldDigits 0 l

/-- Model of Python `int(s)` on the unsigned decimal strings arising in
this code base (date-field slices): the value of a nonempty all-digit
string, `none` (Python: `ValueError`) otherwise. -/
def pyIntOfStr (s : String) : Option ℕ := listIntVal s.data

/-- Whitespace characters stripped by Python numeric conversions. -/
def isSpaceChar (c : Char) : Bool :=
  c == ' ' || c == '\t' || c == '\n' || c == '\r'

/-- Python `str.strip()`: drop whitespace from both ends. -/
def pyStrip (l : List Char) : List Char :=
  ((l.dropWhile isSpaceChar).reverse.dropWhile isSpaceChar).reverse

/-- Split a character list at every occurrence of `sep`
(Python `s.split(sep)` for a one-character separator). -/
def splitOnChar (sep : Char) : List Char → List (List Char)
  | [] => [[]]
  | c :: cs =>
      match splitOnChar sep cs with
      | [] => [[c]]
      | h :: t => if c = sep then [] :: h :: t else (c :: h) :: t

/-- Python `str.replace` on character lists: substitute each
non-overlapping occurrence of `pat`, scanning left to right (`pat` is
nonempty for every use in this code base). The first argument is fuel;
`s.length` is always enough since every step consumes at least one
character. -/
def replaceAux (pat repl : List Char) : ℕ → List Char → List Char
  | 0, s => s
  | fuel + 1, s =>
      match s with
      | [] => []
      | c :: cs =>
          if pat ≠ [] ∧ pat.isPrefixOf s then
            repl ++ replaceAux pat repl fuel (s.drop pat.length)
          else c :: replaceAux pat repl fuel cs

/-- Python `s.replace(pat, repl)` on strings. -/
def pyReplace (s pat repl : String) : String :=
  ⟨replaceAux pat.data repl.data s.data.length s.data⟩

/-- Model of the Python slice `s[a:b]` on strings (for `0 ≤ a ≤ b`,
clamped at the string length, as in Python). -/
def pySlice (s : String) (a b : ℕ) : String :=
  ⟨(s.data.drop a).take (b - a)⟩

/-! ## `common/dates.py` -/

/-- Gregorian leap-year rule, as implemented by Python `datetime.date`. -/
def isLeap (y : ℕ) : Bool := (y % 4 == 0 && y % 100 != 0) || y % 400 == 0

/-- Number of days of month `m` in year `y` (Python `calendar` rule used
by `datetime.date`). -/
def daysInMonth (y m : ℕ) : ℕ :=
  if m = 2 then (if isLeap y then 29 else 28)
  else if m = 4 ∨ m = 6 ∨ m = 9 ∨ m = 11 then 30
  else 31

/-- A `datetime.date` value: year, month, day. Validity (the checks done
by the `date` constructor) is the separate predicate `isValidDate`. -/
structure DateObj where
  year : ℕ
  month : ℕ
  day : ℕ
  deriving DecidableEq, Repr

/-- The validation performed by the Python `date(year, month, day)`
constructor: `MINYEAR = 1 ≤ year ≤ 9999 = MAXYEAR`, `1 ≤ month ≤ 12`,
`1 ≤ day ≤ days in that month`. -/
def isValidDate (d : DateObj) : Bool :=
  1 ≤ d.year && d.year ≤ 9999 && 1 ≤ d.month && d.month ≤ 12 &&
    1 ≤ d.day && d.day ≤ daysInMonth d.year d.month

/-- Embedding of `string_date_to_date_object` (common/dates.py): build
`date(year=int(s[6:10]), month=int(s[3:5]), day=int(s[0:2]))`;
`none` models the `ValueError` Python raises when a slice is not a
number or the field values do not form a valid date. -/
def string_date_to_date_object (string_date : String) : Option DateObj := do
  let y ← pyIntOfStr (pySlice string_date 6 10)
  let m ← pyIntOfStr (pySlice string_date 3 5)
  let d ← pyIntOfStr (pySlice string_date 0 2)
  let obj : DateObj := ⟨y, m, d⟩
  if isValidDate obj then some obj else none

/-- Embedding of `date_object_to_string_date` (common/dates.py):
`str(day).zfill(2) + '/' + str(month).zfill(2) + '/' + str(year)`. -/
def date_object_to_string_date (date_object : DateObj) : String :=
  zfill (natToStr date_object.day) 2 ++ "/" ++
    zfill (natToStr date_object.month) 2 ++ "/" ++ natToStr date_object.year

/-- Days of each month in a non-leap year (CPython `_DAYS_IN_MONTH`). -/
def monthDays (m : ℕ) : ℕ :=
  match m with
  | 1 => 31 | 2 => 28 | 3 => 31 | 4 => 30 | 5 => 31 | 6 => 30
  | 7 => 31 | 8 => 31 | 9 => 30 | 10 => 31 | 11 => 30 | 12 => 31
  | _ => 0

/-- Days before month `m` in a non-leap year (CPython `_DAYS_BEFORE_MONTH`). -/
def daysBeforeMonthTab (m : ℕ) : ℕ :=
  match m with
  | 1 => 0 | 2 => 31 | 3 => 59 | 4 => 90 | 5 => 120 | 6 => 151
  | 7 => 181 | 8 => 212 | 9 => 243 | 10 => 273 | 11 => 304 | 12 => 334
  | _ => 0

/-- CPython `_days_before_year`: days before January 1st of `year`. -/
def daysBeforeYear (y : ℕ) : ℕ :=
  (y - 1) * 365 + (y - 1) / 4 - (y - 1) / 100 + (y - 1) / 400

/-- CPython `_ymd2ord`: proleptic-Gregorian ordinal of a date, with
day 1 = 0001-01-01 (the representation behind `date` arithmetic). -/
def ymd2ord (d : DateObj) : ℕ :=
  daysBeforeYear d.year + daysBeforeMonthTab d.month +
    (if 2 < d.month && isLeap d.year then 1 else 0) + d.day

/-- CPython `_ord2ymd`: date with the given proleptic-Gregorian
ordinal (assumes `1 ≤ n ≤ 3652059`, the `date` range). -/
def ord2ymd (n : ℕ) : DateObj :=
  let n0 := n - 1
  let n400 := n0 / 146097
  let r400 := n0 % 146097
  let n100 := r400 / 36524
  let r100 := r400 % 36524
  let n4 := r100 / 1461
  let r4 := r100 % 1461
  let n1 := r4 / 365
  let r1 := r4 % 365
  let year := n400 * 400 + 1 + n100 * 100 + n4 * 4 + n1
  if n1 = 4 ∨ n100 = 4 then ⟨year - 1, 12, 31⟩
  else
    let leapyear := n1 == 3 && (n4 != 24 || n100 == 3)
    let month0 := (r1 + 50) / 32
    let preceding0 :=
      daysBeforeMonthTab month0 + (if 2 < month0 && leapyear then 1 else 0)
    let month := if r1 < preceding0 then month0 - 1 else month0
    let preceding :=
      if r1 < preceding0 then
        preceding0 -
          (monthDays (month0 - 1) +
            (if month0 - 1 = 2 && leapyear then 1 else 0))
      else preceding0
    ⟨year, month, r1 - preceding + 1⟩

/-- Embedding of `add_days_to_date` (common/dates.py): parse the date
string, add a `timedelta` of `days_to_add` days, format the result.
Python raises on an unparsable input or on leaving the `date` range;
the embedding returns `""` there, a value that is never a well-formed
`DD/MM/YYYY` string. -/
def add_days_to_date (original_date : String) (days_to_add : ℤ) : String :=
  match string_date_to_date_object original_date with
  | none => ""
  | some d =>
      let o : ℤ := (ymd2ord d : ℤ) + days_to_add
      if o < 1 ∨ 3652059 < o then ""
      else date_object_to_string_date (ord2ymd o.toNat)

/-! ## Python `dict` as an insertion-ordered association list -/

/-- Python `d[k]` lookup (`none` models `KeyError`). -/
def dictLookup {κ β : Type} [DecidableEq κ] (k : κ) : List (κ × β) → Option β
  | [] => none
  | (k2, v) :: rest => if k2 = k then some v else dictLookup k rest

/-- Python `d[k] = v`: update in place when the key is present, append
otherwise (insertion order preserved, as in CPython). -/
def dictUpsert {κ β : Type} [DecidableEq κ] (k : κ) (v : β) :
    List (κ × β) → List (κ × β)
  | [] => [(k, v)]
  | (k2, v2) :: rest =>
      if k2 = k then (k2, v) :: rest else (k2, v2) :: dictUpsert k v rest

/-! ## Ledger records -/

/-- One parsed line of the ledger file (the fields `csv.DictReader`
exposes under the fixed header). -/
structure Rec where
  origin_station : String
  destination_station : String
  travel_date : String
  departure_time : String
  arrival_time : String
  price : String
  company : String
  search_date : String
  search_time : String
  deriving DecidableEq, Repr

/-! ## `round_trips_finder/main.py` -/

/-- One train service as built by `load_trains`: the Python tuple
`((departure_time, arrival_time), price, company, travel_date)`. -/
structure Train where
  times : String × String
  price : ℚ
  company : String
  date : String
  deriving DecidableEq, Repr

/-- Model of `float(s)` on the decimal literals that occur in price
fields: optional surrounding whitespace, optional sign, digits with at
most one decimal point (scientific notation, `inf` and `nan` never
occur in ledger price fields and are not modelled). `none` models the
`ValueError` raised on any other string. -/
def pyFloatOfStr (s : String) : Option ℚ :=
  let t := pyStrip s.data
  let (neg, body) :=
    match t with
    | '-' :: cs => (true, cs)
    | '+' :: cs => (false, cs)
    | cs => (false, cs)
  match splitOnChar '.' body with
  | [ip] =>
      match listIntVal ip with
      | some v => some (if neg then -(v : ℚ) else (v : ℚ))
      | none => none
  | [ip, fp] =>
      if (ip ++ fp).isEmpty then none
      else if (ip ++ fp).all isDigitChar then
        match foldDigits 0 ip, foldDigits 0 fp with
        | some iv, some fv =>
            let mag : ℚ := (iv : ℚ) + (fv : ℚ) / ((10 : ℚ) ^ fp.length)
            some (if neg then -mag else mag)
        | _, _ => none
      else none
  | _ => none

/-- The price parse performed by `load_trains`:
`float(line[price].replace(",", ".").replace("€", ""))`. -/
def parsePrice (s : String) : Option ℚ :=
  pyFloatOfStr (pyReplace (pyReplace s "," ".") "€" "")

/-- The train tuple `((departure_time, arrival_time), price, company,
travel_date)` appended by `load_trains` for one matching line. -/
def mkTrain (line : Rec) (price : ℚ) : Train :=
  ⟨(line.departure_time, line.arrival_time), price, line.company,
    line.travel_date⟩

/-- The body of the `load_trains` loop for one ledger line: discard
lines not matching the requested origin, destination or travel dates,
skip lines whose price does not parse, and append the train tuple to
the dict entry of its travel date otherwise. -/
def loadTrainsStep (origin_station destination_station : String)
    (travel_dates : List String) (trains : List (String × List Train))
    (line : Rec) : List (String × List Train) :=
  if line.origin_station ≠ origin_station then trains
  else if line.destination_station ≠ destination_station then trains
  else if line.travel_date ∉ travel_dates then trains
  else
    match parsePrice line.price with
    | none => trains
    | some price =>
        let cur := (dictLookup line.travel_date trains).getD []
        dictUpsert line.travel_date (cur ++ [mkTrain line price]) trains

/-- Embedding of `load_trains` (round_trips_finder/main.py): scan the
ledger lines in order; keep lines matching the origin, destination and
one of the travel dates whose price parses; group them into a dict
from travel date to the list of train tuples of that date. -/
def load_trains (input : List Rec) (origin_station destination_station : String)
    (travel_dates : List String) : List (String × List Train) :=
  input.foldl
    (loadTrainsStep origin_station destination_station travel_dates) []

/-- Innermost loop of `possible_train_combinations`: pair one go train
with every return train of the return date, storing the summed price
under the key (go train, return train). -/
def addReturnCombos (go_train : Train) (return_trains : List Train)
    (combinations : List ((Train × Train) × ℚ)) :
    List ((Train × Train) × ℚ) :=
  return_trains.foldl (fun combinations return_train =>
    dictUpsert (go_train, return_train)
      (go_train.price + return_train.price) combinations) combinations

/-- The two nested train loops of `possible_train_combinations`: the
cross product of the go trains of a go date with the return trains of
a return date. -/
def addPairCombos (go_trains return_trains : List Train)
    (combinations : List ((Train × Train) × ℚ)) :
    List ((Train × Train) × ℚ) :=
  go_trains.foldl (fun combinations go_train =>
    addReturnCombos go_train return_trains combinations) combinations

/-- The trip-length loop of `possible_train_combinations` for one go
date: each trip length yields a return date; skip it when it falls
outside the travel dates or has no return trains. -/
def addTripDayCombos (go_date : String)
    (available_return_trains : List (String × List Train))
    (travel_dates : List String) (go_trains : List Train)
    (trip_days : List ℤ) (combinations : List ((Train × Train) × ℚ)) :
    List ((Train × Train) × ℚ) :=
  trip_days.foldl (fun combinations t_day =>
    let return_date := add_days_to_date go_date t_day
    if return_date ∉ travel_dates then combinations
    else
      match dictLookup return_date available_return_trains with
      | none => combinations
      | some return_trains =>
          addPairCombos go_trains return_trains combinations) combinations

/-- Embedding of `possible_train_combinations`
(round_trips_finder/main.py): for each go date of the travel window
having go trains and each trip length whose return date is in the
window and has return trains, add every (go train, return train) pair
with the summed price to the combinations dict. -/
def possible_train_combinations
    (available_go_trains available_return_trains : List (String × List Train))
    (travel_dates : List String) (trip_days : List ℤ) :
    List ((Train × Train) × ℚ) :=
  travel_dates.foldl (fun combinations go_date =>
    match dictLookup go_date available_go_trains with
    | none => combinations
    | some go_trains =>
        addTripDayCombos go_date available_return_trains travel_dates
          go_trains trip_days combinations)
    []

/-- The loop of `select_cheapest`, as written in the source: `i` starts
at 0 and is never incremented inside the loop, `max_price` starts at
`float(inf)` (modelled by `none`), and the loop breaks at the first
price strictly above `max_price`. -/
def selectLoop {κ : Type} (min_i i : ℕ) (max_price : Option ℚ) :
    List (κ × ℚ) → List (κ × ℚ)
  | [] => []
  | (combi, price) :: rest =>
      let max_price := if i = min_i then some price else max_price
      if match max_price with | none => false | some mp => decide (mp < price)
      then []
      else (combi, price) :: selectLoop min_i i max_price rest

/-- Embedding of `select_cheapest` (round_trips_finder/main.py):
iterate over the items sorted ascending by price (Python `sorted` is
stable; the stable structural `insertionSort` computes the same list)
and run the source loop. -/
def select_cheapest {κ : Type} (combinations : List (κ × ℚ)) (min_i : ℕ) :
    List (κ × ℚ) :=
  selectLoop min_i 0 none
    (combinations.insertionSort (fun a b => a.2 ≤ b.2))

/-! ## `common/existing_output.py` -/

/-- A train service to request: the tuple (origin station, destination
station, travel date, search date). -/
abbrev Srv := String × String × String × String

/-- Embedding of `initialize_output_file` (common/existing_output.py):
the exact content written to the freshly created ledger file. -/
def initialize_output_file : String :=
  "origin_station|destination_station|travel_date|" ++
    "departure_time|arrival_time|price|company|" ++
    "search_date|search_time\n"

/-- Embedding of `discard_existing_services`
(common/existing_output.py): drop every service whose (origin,
destination, travel date, search date) tuple already appears in the
ledger file, keeping the remaining ones in order. -/
def discard_existing_services (services_to_request : List Srv)
    (ledger : List Rec) : List Srv :=
  let existing_requested_services := ledger.map (fun line =>
    (line.origin_station, line.destination_station, line.travel_date,
      line.search_date))
  services_to_request.filter (fun ser => ser ∉ existing_requested_services)

/-- Result of the planning step: the remaining services to request and
the content written to the ledger path, if any. -/
structure PlanningResult where
  remaining : List Srv
  written : Option String
  deriving DecidableEq, Repr

/-- Embedding of `load_services_to_request`
(common/existing_output.py): build the cross product of station pairs
and travel dates tagged with the search date; when the ledger file
exists, keep all of them (`repeat_services = True`) or discard the
existing ones (`repeat_services = False`), writing nothing; when it
does not exist, initialize the file and keep all of them. The file
system is abstracted by `ledgerExists` and the parsed `ledger` lines. -/
def load_services_to_request (station_ods : List (String × String))
    (travel_dates : List String) (search_date : String)
    (ledgerExists : Bool) (ledger : List Rec) (repeat_services : Bool) :
    PlanningResult :=
  let services_to_request :=
    station_ods.flatMap (fun od =>
      travel_dates.map (fun t_d => (od.1, od.2, t_d, search_date)))
  if ledgerExists then
    if repeat_services then ⟨services_to_request, none⟩
    else ⟨discard_existing_services services_to_request ledger, none⟩
  else ⟨services_to_request, some initialize_output_file⟩

/-! ## `common/remaining_time.py` -/

/-- Embedding of `print_remaining_time` (common/remaining_time.py):
datetimes are modelled as seconds (`ℚ`); the result is the printed
remaining-minutes estimate, `none` for the early `return None` taken
when no process has completed yet. -/
def print_remaining_time (start_datetime : ℚ) (total_num_processes : ℕ)
    (current_datetime : ℚ) (remaining_num_processes : ℕ) : Option ℚ :=
  if remaining_num_processes = total_num_processes then none
  else
    let elapsed_minutes := (current_datetime - start_datetime) / 60
    let minutes_per_successful_search :=
      elapsed_minutes /
        ((total_num_processes : ℚ) - (remaining_num_processes : ℚ))
    some (minutes_per_successful_search * (remaining_num_processes : ℚ))

/-! ## `common/write_missing_services.py` and the AVLO orchestrator -/

/-- Embedding of `write_missing_services`
(common/write_missing_services.py): the lines written to
`missing_services.txt` — a fixed header, then one line per missing
service. The third source parameter (`output_dir`) selects the file
path and does not affect the content. -/
def write_missing_services (missing_services : List Srv)
    (operator : String) : List String :=
  "origin_station|destination_station|operator|travel_date\n" ::
    missing_services.map (fun s =>
      s.1 ++ "|" ++ s.2.1 ++ "|" ++ operator ++ "|" ++ s.2.2.1 ++ "\n")

/-- `write_missing_services` has three required positional parameters:
`missing_services`, `operator`, `output_dir`. -/
def write_missing_services_param_count : ℕ := 3

/-- The abort path of `main_function` (AVLO/main.py) calls
`write_missing_services(services_to_request, dirname(output_path))`
with two positional arguments. -/
def avlo_abort_call_arg_count : ℕ := 2

/-- One provider interaction, from the loop's point of view:
a number driving the `random.choice` pick (reduced modulo the pending
count) and the outcome of `avlo_services_try` — `some recs` when the
call succeeded and appended the records `recs` to the ledger,
`none` when it returned `False`. -/
abbrev Event := ℕ × Option (List Rec)

/-- The orchestrator loop state: the pending request list, the
consecutive-failure counter `last_services_not_found_count`, and the
records appended to the ledger so far in this run. -/
structure LoopState where
  services_to_request : List Srv
  last_services_not_found_count : ℕ
  new_records : List Rec
  deriving DecidableEq, Repr

/-- How a run of the `while` loop of `main_function` (AVLO/main.py)
ended: the pending list drained, the consecutive-failure circuit
breaker fired (`last_services_not_found_count > 20`), or the supplied
event list ran out with work still pending (the loop itself would
keep iterating). -/
inductive ExitStatus where
  | drained
  | aborted
  | exhausted
  deriving DecidableEq, Repr

/-- Result of running the orchestrator loop: final state, the
`(total, remaining)` argument pairs of every `print_remaining_time`
call made, and how the loop ended. -/
structure RunResult where
  final : LoopState
  print_calls : List (ℕ × ℕ)
  exit : ExitStatus
  deriving DecidableEq, Repr

/-- One iteration of the `while` loop of `main_function` (AVLO/main.py):
pick the task selected by the event (`random.choice` returns some
element of the non-empty pending list; the event index reduced modulo
its length ranges over exactly those); on success remove it, reset the
counter, extend the ledger and call `print_remaining_time`; on failure
increment the counter. Returns the new state and the
`print_remaining_time` calls made. -/
def loopIter (total : ℕ) (st : LoopState) (ev : Event) :
    LoopState × List (ℕ × ℕ) :=
  let s_to_request :=
    st.services_to_request.getD
      (ev.1 % st.services_to_request.length) ("", "", "", "")
  match ev.2 with
  | some recs =>
      let pending := st.services_to_request.erase s_to_request
      (⟨pending, 0, st.new_records ++ recs⟩, [(total, pending.length)])
  | none =>
      (⟨st.services_to_request, st.last_services_not_found_count + 1,
        st.new_records⟩, [])

/-- The `while` loop of `main_function` (AVLO/main.py), driven by a
list of provider events: loop while the pending list is non-empty,
apply `loopIter`, and leave through the abort branch as soon as
`last_services_not_found_count > 20`. -/
def runLoop (total : ℕ) (events : List Event) (st : LoopState) : RunResult :=
  match events with
  | [] =>
      ⟨st, [],
        if st.services_to_request.isEmpty then .drained else .exhausted⟩
  | ev :: rest =>
      if st.services_to_request.isEmpty then ⟨st, [], .drained⟩
      else
        let step := loopIter total st ev
        if step.1.last_services_not_found_count > 20 then
          ⟨step.1, step.2, .aborted⟩
        else
          let r := runLoop total rest step.1
          ⟨r.final, step.2 ++ r.print_calls, r.exit⟩

/-- Outcome of a whole `main_function` run (AVLO/main.py) beyond the
loop itself: the missing-services report content if one was written,
whether `output_file.close()` was reached, and the uncaught exception
if one was raised. -/
structure AvloOutcome where
  run : RunResult
  report : Option (List String)
  ledger_closed : Bool
  raised : Option String
  deriving DecidableEq, Repr

/-- The run epilogue of `main_function` (AVLO/main.py). On the abort
branch the source calls
`write_missing_services(services_to_request, dirname(output_path))`:
two positional arguments for a function with three required positional
parameters, so Python raises `TypeError` before any line of
`write_missing_services` runs, and the exception propagates past
`output_file.close()`. The (unreachable) well-arity branch is modelled
too, with `dirname_output_path` bound to `operator` as the positional
binding would do. On the other exits the loop falls through to
`output_file.close()`. -/
def avlo_run (total : ℕ) (events : List Event) (st : LoopState)
    (dirname_output_path : String) : AvloOutcome :=
  let r := runLoop total events st
  match r.exit with
  | .aborted =>
      if avlo_abort_call_arg_count = write_missing_services_param_count then
        ⟨r, some (write_missing_services r.final.services_to_request
            dirname_output_path), true, none⟩
      else
        ⟨r, none, false,
          some "TypeError: write_missing_services() missing 1 required positional argument"⟩
  | _ => ⟨r, none, true, none⟩

/-- A run of the AVLO orchestrator with one pending task and 21
consecutive provider failures, driving the loop into the abort branch. -/
def abortDemo : AvloOutcome :=
  avlo_run 1 (List.replicate 21 ((0 : ℕ), (none : Option (List Rec))))
    ⟨[("MAD", "BCN", "01/05/2024", "10/04/2024")], 0, []⟩ "outdir"

/-- The per-date contribution of one ledger line to `load_trains`. -/
def lineContribution (origin_station destination_station : String)
    (travel_dates : List String) (d : String) (line : Rec) : Option Train :=
  if line.origin_station = origin_station ∧
      line.destination_station = destination_station ∧
      line.travel_date ∈ travel_dates ∧ line.travel_date = d then
    (parsePrice line.price).map (fun price => mkTrain line price)
  else none

/-! ## Dict lemmas -/

theorem dictLookup_upsert_self {κ β : Type} [DecidableEq κ] (k : κ) (v : β)
    (l : List (κ × β)) : dictLookup k (dictUpsert k v l) = some v := by
  induction l with
  | nil => simp [dictUpsert, dictLookup]
  | cons hd tl ih =>
      cases hd with
      | mk k2 v2 =>
          by_cases h : k2 = k
          · simp [dictUpsert, dictLookup, h]
          · simp [dictUpsert, dictLookup, h, ih]

theorem dictLookup_upsert_ne {κ β : Type} [DecidableEq κ] {k k2 : κ} (v : β)
    (l : List (κ × β)) (h : k ≠ k2) :
    dictLookup k2 (dictUpsert k v l) = dictLookup k2 l := by
  induction l with
  | nil => simp [dictUpsert, dictLookup, h]
  | cons hd tl ih =>
      cases hd with
      | mk k3 v3 =>
          by_cases h3 : k3 = k
          · subst h3
            simp [dictUpsert, dictLookup, h]
          · simp only [dictUpsert, dictLookup, if_neg h3]
            by_cases h4 : k3 = k2 <;> simp [h4, ih]

/-! ## Claim theorems -/

/-- C1, evaluation of the code at the failing input: `select_cheapest`
over the pairs A↦10, B↦10, C↦15, D↦20 with `min_i = 2` returns all four
entries — not, as claimed, only the two entries priced 10. The loop
variable `i` is never incremented in the source, so `i == min_i` never
holds for `min_i = 2` and `max_price` stays infinite. -/
theorem select_cheapest_two_keeps_all_four :
    select_cheapest [("A", (10 : ℚ)), ("B", 10), ("C", 15), ("D", 20)] 2 =
      [("A", 10), ("B", 10), ("C", 15), ("D", 20)] := by decide

/-- C6, evaluation of the code at the failing input: `select_cheapest`
with `min_i = 0` over the non-empty input A↦10, B↦15 returns both
entries, not only the cheapest-tied entry A↦10: since `i` stays 0 and
`min_i = 0`, the source assigns `max_price = price` at every iteration
(not only the first), so `price > max_price` never holds and nothing
is ever cut off. -/
theorem select_cheapest_zero_keeps_everything :
    select_cheapest [("A", (10 : ℚ)), ("B", 15)] 0 = [("A", 10), ("B", 15)] := by
  decide

/-- C2, evaluation of the code on an aborting run: when the
consecutive-failure threshold is breached the run does reach the abort
branch, but the call
`write_missing_services(services_to_request, dirname(output_path))`
passes two positional arguments to a three-parameter function, so a
`TypeError` is raised: no missing-services report is written and
`output_file.close()` is never reached on this path. -/
theorem avlo_abort_skips_report_and_close :
    abortDemo.run.exit = ExitStatus.aborted ∧
      abortDemo.report = none ∧
      abortDemo.ledger_closed = false ∧
      abortDemo.raised.isSome = true ∧
      avlo_abort_call_arg_count ≠ write_missing_services_param_count := by
  decide

/-- If every event is a failure and the failures exactly exhaust the
threshold budget, the loop aborts with counter 21, the pending list and
the ledger untouched. -/
theorem runLoop_all_failures (total : ℕ) :
    ∀ (idxs : List ℕ) (st : LoopState),
      st.services_to_request ≠ [] →
      st.last_services_not_found_count ≤ 20 →
      st.last_services_not_found_count + idxs.length = 21 →
      runLoop total (idxs.map (fun i => (i, none))) st =
        ⟨⟨st.services_to_request, 21, st.new_records⟩, [], ExitStatus.aborted⟩ := by
  intro idxs
  induction idxs with
  | nil => intro st _ hle hlen; simp at hlen; omega
  | cons i idxs ih =>
      intro st hne hle hlen
      have hemp : st.services_to_request.isEmpty = false := by
        simpa [List.isEmpty_iff] using hne
      simp only [List.map_cons, runLoop, hemp, Bool.false_eq_true,
        if_false, loopIter]
      by_cases h : st.last_services_not_found_count + 1 > 20
      · have h0 : idxs.length = 0 := by simp at hlen; omega
        have h21 : st.last_services_not_found_count + 1 = 21 := by
          simp at hlen; omega
        simp [h, h21]
      · simp only [h, if_false]
        have := ih ⟨st.services_to_request,
          st.last_services_not_found_count + 1, st.new_records⟩ hne
          (by simp at h ⊢; omega) (by simp at hlen ⊢; omega)
        simp [this]

/-- When a run exits through the abort branch, the final
consecutive-failure counter exceeds 20. -/
theorem runLoop_aborted_counter (total : ℕ) :
    ∀ (events : List Event) (st : LoopState),
      (runLoop total events st).exit = ExitStatus.aborted →
      (runLoop total events st).final.last_services_not_found_count > 20 := by
  intro events
  induction events with
  | nil =>
      intro st h
      simp only [runLoop] at h
      split at h <;> simp_all
  | cons ev rest ih =>
      intro st h
      simp only [runLoop] at h ⊢
      by_cases hemp : st.services_to_request.isEmpty
      · simp [hemp] at h
      · simp only [hemp, Bool.false_eq_true, if_false] at h ⊢
        by_cases habort :
            (loopIter total st ev).1.last_services_not_found_count > 20
        · simp [habort]
        · simp only [habort, if_false] at h ⊢
          exact ih _ h

/-- C3: the consecutive-failure counter counts failures since the most
recent success. A failed provider call increments it by one and leaves
the pending list and the ledger untouched; a successful call removes
the chosen task and resets the counter to 0 from any value; the run
exits through the abort branch exactly when the counter exceeds 20; and
a run of 21 consecutive failures from a fresh counter aborts with no
new ledger records. -/
theorem consecutive_failure_counter_semantics :
    (∀ (total : ℕ) (st : LoopState) (i : ℕ),
        loopIter total st (i, none) =
          (⟨st.services_to_request, st.last_services_not_found_count + 1,
            st.new_records⟩, [])) ∧
    (∀ (total : ℕ) (st : LoopState) (i : ℕ) (recs : List Rec),
        (loopIter total st (i, some recs)).1.last_services_not_found_count
            = 0 ∧
          (loopIter total st (i, some recs)).1.services_to_request =
            st.services_to_request.erase
              (st.services_to_request.getD
                (i % st.services_to_request.length) ("", "", "", ""))) ∧
    (∀ (total : ℕ) (events : List Event) (st : LoopState),
        (runLoop total events st).exit = ExitStatus.aborted →
        (runLoop total events st).final.last_services_not_found_count
          > 20) ∧
    (∀ (total : ℕ) (ev : Event) (rest : List Event) (st : LoopState),
        st.services_to_request ≠ [] →
        (loopIter total st ev).1.last_services_not_found_count > 20 →
        runLoop total (ev :: rest) st =
          ⟨(loopIter total st ev).1, (loopIter total st ev).2,
            ExitStatus.aborted⟩) ∧
    (∀ (total : ℕ) (idxs : List ℕ) (pending : List Srv),
        pending ≠ [] → idxs.length = 21 →
        runLoop total (idxs.map (fun i => (i, none))) ⟨pending, 0, []⟩ =
          ⟨⟨pending, 21, []⟩, [], ExitStatus.aborted⟩) := by
  refine ⟨?_, ?_, ?_, ?_, ?_⟩
  · intro total st i
    simp [loopIter]
  · intro total st i recs
    simp [loopIter]
  · exact fun total => runLoop_aborted_counter total
  · intro total ev rest st hne habort
    have hemp : st.services_to_request.isEmpty = false := by
      simpa [List.isEmpty_iff] using hne
    simp [runLoop, hemp, habort]
  · intro total idxs pending hne hlen
    exact runLoop_all_failures total idxs ⟨pending, 0, []⟩ hne (by simp)
      (by simp [hlen])

/-- Closed instance of C3: one pending task, a fresh counter, and 21
consecutive provider failures produce an aborted run with counter 21
and no new ledger records. -/
theorem consecutive_failure_counter_semantics_witness :
    runLoop 1
        ((List.replicate 21 (0 : ℕ)).map (fun i => (i, none)))
        ⟨[("MAD", "BCN", "01/05/2024", "10/04/2024")], 0, []⟩ =
      ⟨⟨[("MAD", "BCN", "01/05/2024", "10/04/2024")], 21, []⟩, [],
        ExitStatus.aborted⟩ :=
  consecutive_failure_counter_semantics.2.2.2.2 1 (List.replicate 21 0)
    [("MAD", "BCN", "01/05/2024", "10/04/2024")] (by decide) (by decide)

/-- `random.choice` on a non-empty list returns one of its elements:
the task picked by `loopIter` is in the pending list. -/
theorem getD_mod_mem (l : List Srv) (i : ℕ) (h : l ≠ []) :
    l.getD (i % l.length) ("", "", "", "") ∈ l := by
  have hlen : 0 < l.length := List.length_pos.mpr h
  have hm : i % l.length < l.length := Nat.mod_lt _ hlen
  rw [List.getD_eq_getElem?_getD, List.getElem?_eq_getElem hm,
    Option.getD_some]
  exact List.getElem_mem hm

/-- Every `print_remaining_time` call recorded by a run has `total` as
first argument and a strictly smaller remaining count, provided the run
starts with at most `total` pending tasks. -/
theorem runLoop_print_calls_lt (total : ℕ) :
    ∀ (events : List Event) (st : LoopState),
      st.services_to_request.length ≤ total →
      ∀ pr ∈ (runLoop total events st).print_calls,
        pr.1 = total ∧ pr.2 < pr.1 := by
  intro events
  induction events with
  | nil => intro st _ pr hpr; simp only [runLoop] at hpr; simp at hpr
  | cons ev rest ih =>
      intro st hlen pr hpr
      by_cases hemp : st.services_to_request.isEmpty
      · simp [runLoop, hemp] at hpr
      · obtain ⟨i, outcome⟩ := ev
        cases outcome with
        | none =>
            simp only [runLoop, hemp, Bool.false_eq_true, if_false,
              loopIter] at hpr
            split at hpr
            · simp at hpr
            · simp only [List.nil_append] at hpr
              exact ih _ (by simpa using hlen) pr hpr
        | some recs =>
            have hne : st.services_to_request ≠ [] := by
              simpa [List.isEmpty_iff] using hemp
            have hmem := getD_mod_mem st.services_to_request i hne
            have herase :
                (st.services_to_request.erase
                  (st.services_to_request.getD
                    (i % st.services_to_request.length)
                    ("", "", "", ""))).length =
                  st.services_to_request.length - 1 :=
              List.length_erase_of_mem hmem
            have hpos : 0 < st.services_to_request.length :=
              List.length_pos.mpr hne
            simp only [runLoop, hemp, Bool.false_eq_true, if_false,
              loopIter] at hpr
            split at hpr
            · simp only [List.mem_singleton] at hpr
              subst hpr
              constructor
              · rfl
              · simp only [herase]; omega
            · simp only [List.mem_append, List.mem_singleton] at hpr
              rcases hpr with hpr | hpr
              · subst hpr
                constructor
                · rfl
                · simp only [herase]; omega
              · exact ih _ (by simp only [herase]; omega) pr hpr

/-- C10: `print_remaining_time` never divides by zero. When the
remaining count equals the total it returns immediately with `None`;
whenever it computes the estimate the denominator `total - remaining`
is non-zero; and inside the orchestrator loop every call it receives
has remaining strictly below total, so the completed count is at
least 1. -/
theorem print_remaining_time_no_div_by_zero :
    (∀ (sd cd : ℚ) (total : ℕ),
        print_remaining_time sd total cd total = none) ∧
    (∀ (sd cd : ℚ) (total rem : ℕ),
        (print_remaining_time sd total cd rem).isSome = true →
        ((total : ℚ) - (rem : ℚ)) ≠ 0) ∧
    (∀ (total : ℕ) (events : List Event) (st : LoopState),
        st.services_to_request.length ≤ total →
        ∀ pr ∈ (runLoop total events st).print_calls,
          pr.1 = total ∧ pr.2 < pr.1) := by
  refine ⟨?_, ?_, ?_⟩
  · intro sd cd total
    simp [print_remaining_time]
  · intro sd cd total rem hsome
    rw [print_remaining_time] at hsome
    split at hsome
    · simp at hsome
    · rename_i hne
      rw [sub_ne_zero]
      intro h
      exact hne (by exact_mod_cast h.symm)
  · exact runLoop_print_calls_lt

/-- Closed instance of C10: with five processes all remaining the
function returns `None`; in a two-task run whose first event succeeds,
the single recorded call is `(2, 1)`: remaining below total. -/
theorem print_remaining_time_no_div_by_zero_witness :
    print_remaining_time 0 5 60 5 = none ∧
      ((2 : ℕ), (1 : ℕ)).1 = 2 ∧ ((2 : ℕ), (1 : ℕ)).2 < ((2 : ℕ), (1 : ℕ)).1 :=
  ⟨print_remaining_time_no_div_by_zero.1 0 60 5,
    print_remaining_time_no_div_by_zero.2.2 2 [((0 : ℕ), some [])]
      ⟨[("a", "b", "c", "d"), ("e", "f", "g", "h")], 0, []⟩ (by decide)
      (2, 1) (by decide)⟩

/-- C4: with repeat acquisition disabled and an existing ledger,
planning returns exactly the cross-product tasks whose (origin,
destination, travel date, search date) dedup key is not in the ledger;
with repeat acquisition enabled, or when the ledger file does not
exist, it returns the full cross product tagged with the search date. -/
theorem load_services_to_request_dedup :
    (∀ (station_ods : List (String × String)) (travel_dates : List String)
        (search_date : String) (ledger : List Rec) (s : Srv),
        s ∈ (load_services_to_request station_ods travel_dates search_date
              true ledger false).remaining ↔
          s ∈ station_ods.flatMap (fun od =>
              travel_dates.map (fun t_d => (od.1, od.2, t_d, search_date))) ∧
            s ∉ ledger.map (fun line =>
              (line.origin_station, line.destination_station,
                line.travel_date, line.search_date))) ∧
    (∀ (station_ods : List (String × String)) (travel_dates : List String)
        (search_date : String) (ledger : List Rec) (ledgerExists : Bool),
        (load_services_to_request station_ods travel_dates search_date
            ledgerExists ledger true).remaining =
          station_ods.flatMap (fun od =>
            travel_dates.map (fun t_d => (od.1, od.2, t_d, search_date)))) ∧
    (∀ (station_ods : List (String × String)) (travel_dates : List String)
        (search_date : String) (ledger : List Rec) (repeat_services : Bool),
        (load_services_to_request station_ods travel_dates search_date
            false ledger repeat_services).remaining =
          station_ods.flatMap (fun od =>
            travel_dates.map (fun t_d => (od.1, od.2, t_d, search_date)))) := by
  refine ⟨?_, ?_, ?_⟩
  · intro station_ods travel_dates search_date ledger s
    simp [load_services_to_request, discard_existing_services,
      List.mem_filter]
  · intro station_ods travel_dates search_date ledger ledgerExists
    cases ledgerExists <;> simp [load_services_to_request]
  · intro station_ods travel_dates search_date ledger repeat_services
    simp [load_services_to_request]

/-- C7: when the ledger file does not exist, planning initializes it
with exactly the fixed single header line and discards no task; when
the ledger file exists, planning writes nothing to it. -/
theorem planning_ledger_initialization :
    (∀ (station_ods : List (String × String)) (travel_dates : List String)
        (search_date : String) (ledger : List Rec) (repeat_services : Bool),
        (load_services_to_request station_ods travel_dates search_date
            false ledger repeat_services).written =
          some initialize_output_file ∧
        (load_services_to_request station_ods travel_dates search_date
            false ledger repeat_services).remaining =
          station_ods.flatMap (fun od =>
            travel_dates.map (fun t_d => (od.1, od.2, t_d, search_date)))) ∧
    initialize_output_file =
      "origin_station|destination_station|travel_date|departure_time|arrival_time|price|company|search_date|search_time\n" ∧
    (∀ (station_ods : List (String × String)) (travel_dates : List String)
        (search_date : String) (ledger : List Rec) (repeat_services : Bool),
        (load_services_to_request station_ods travel_dates search_date
            true ledger repeat_services).written = none) := by
  refine ⟨?_, by decide, ?_⟩
  · intro station_ods travel_dates search_date ledger repeat_services
    exact ⟨rfl, rfl⟩
  · intro station_ods travel_dates search_date ledger repeat_services
    cases repeat_services <;> rfl

theorem loadTrainsStep_lookup (o dst : String) (dates : List String)
    (acc : List (String × List Train)) (line : Rec) (d : String) :
    (dictLookup d (loadTrainsStep o dst dates acc line)).getD [] =
      (dictLookup d acc).getD [] ++
        (lineContribution o dst dates d line).toList := by
  unfold loadTrainsStep lineContribution
  by_cases h1 : line.origin_station = o
  swap
  · simp [h1]
  by_cases h2 : line.destination_station = dst
  swap
  · simp [h1, h2]
  by_cases h3 : line.travel_date ∈ dates
  swap
  · simp [h1, h2, h3]
  simp only [h1, h2, h3, ne_eq, not_true_eq_false, if_false,
    not_false_eq_true, if_true, true_and]
  cases hp : parsePrice line.price with
  | none => simp
  | some price =>
      by_cases hd : line.travel_date = d
      · subst hd
        simp [dictLookup_upsert_self]
      · rw [dictLookup_upsert_ne _ _ hd]
        simp [hd]

theorem load_trains_fold_lookup (o dst : String) (dates : List String) :
    ∀ (lines : List Rec) (acc : List (String × List Train)) (d : String),
      (dictLookup d (lines.foldl (loadTrainsStep o dst dates) acc)).getD []
        = (dictLookup d acc).getD [] ++
            lines.filterMap (lineContribution o dst dates d) := by
  intro lines
  induction lines with
  | nil => intro acc d; simp
  | cons line rest ih =>
      intro acc d
      rw [List.foldl_cons, List.filterMap_cons, ih]
      rw [loadTrainsStep_lookup]
      cases lineContribution o dst dates d line <;> simp

/-- C8: for every ledger content and query, the trains `load_trains`
groups under a travel date are exactly the ledger lines, in ledger
order, whose origin, destination and travel date match the query and
whose price parses after the comma and euro-sign substitutions; a line
with an unparsable price is silently skipped (the function is total:
no input makes it fail). -/
theorem load_trains_filters_groups_skips :
    ∀ (input : List Rec) (origin_station destination_station : String)
      (travel_dates : List String) (d : String),
      (dictLookup d
          (load_trains input origin_station destination_station
            travel_dates)).getD [] =
        input.filterMap (fun line =>
          if line.origin_station = origin_station ∧
              line.destination_station = destination_station ∧
              line.travel_date ∈ travel_dates ∧ line.travel_date = d then
            (parsePrice line.price).map (fun price => mkTrain line price)
          else none) := by
  intro input o dst dates d
  have := load_trains_fold_lookup o dst dates input [] d
  simpa [load_trains, lineContribution, dictLookup] using this

theorem addReturnCombos_lookup (g r g0 : Train) :
    ∀ (rl : List Train) (combos : List ((Train × Train) × ℚ)),
      dictLookup (g, r) (addReturnCombos g0 rl combos) =
        if g = g0 ∧ r ∈ rl then some (g.price + r.price)
        else dictLookup (g, r) combos := by
  intro rl
  induction rl with
  | nil => intro combos; simp [addReturnCombos]
  | cons rt rl ih =>
      intro combos
      rw [addReturnCombos, List.foldl_cons, ← addReturnCombos, ih]
      by_cases hA : g = g0 ∧ r ∈ rl
      · simp [hA, hA.2]
      · rw [if_neg hA]
        by_cases hB : (g0, rt) = (g, r)
        · obtain ⟨hg, hr⟩ := Prod.mk.injEq .. ▸ hB
          subst hg; subst hr
          rw [dictLookup_upsert_self]
          rw [if_pos ⟨rfl, List.mem_cons_self ..⟩]
        · rw [dictLookup_upsert_ne _ _ hB]
          rw [if_neg]
          intro ⟨hg, hr⟩
          rcases List.mem_cons.mp hr with hr | hr
          · exact hB (by rw [hg, hr])
          · exact hA ⟨hg, hr⟩

theorem addPairCombos_lookup (g r : Train) :
    ∀ (gl rl : List Train) (combos : List ((Train × Train) × ℚ)),
      dictLookup (g, r) (addPairCombos gl rl combos) =
        if g ∈ gl ∧ r ∈ rl then some (g.price + r.price)
        else dictLookup (g, r) combos := by
  intro gl
  induction gl with
  | nil => intro rl combos; simp [addPairCombos]
  | cons g0 gl ih =>
      intro rl combos
      rw [addPairCombos, List.foldl_cons, ← addPairCombos, ih,
        addReturnCombos_lookup]
      by_cases hA : g ∈ gl ∧ r ∈ rl
      · simp [hA, hA.1]
      · rw [if_neg hA]
        by_cases hB : g = g0 ∧ r ∈ rl
        · rw [if_pos hB, if_pos ⟨by rw [hB.1]; exact List.mem_cons_self .., hB.2⟩]
        · rw [if_neg hB, if_neg]
          intro ⟨hg, hr⟩
          rcases List.mem_cons.mp hg with hg | hg
          · exact hB ⟨hg, hr⟩
          · exact hA ⟨hg, hr⟩

theorem addTripDayCombos_lookup (g r : Train) (go_date : String)
    (ret : List (String × List Train)) (dates : List String)
    (gl : List Train) :
    ∀ (trips : List ℤ) (combos : List ((Train × Train) × ℚ)),
      dictLookup (g, r) (addTripDayCombos go_date ret dates gl trips combos) =
        if ∃ t ∈ trips, add_days_to_date go_date t ∈ dates ∧
            g ∈ gl ∧ r ∈ (dictLookup (add_days_to_date go_date t) ret).getD []
        then some (g.price + r.price)
        else dictLookup (g, r) combos := by
  intro trips
  induction trips with
  | nil => intro combos; simp [addTripDayCombos]
  | cons t trips ih =>
      intro combos
      have hstep : addTripDayCombos go_date ret dates gl (t :: trips) combos =
          addTripDayCombos go_date ret dates gl trips
            (if add_days_to_date go_date t ∉ dates then combos
             else
               match dictLookup (add_days_to_date go_date t) ret with
               | none => combos
               | some return_trains => addPairCombos gl return_trains combos) :=
        rfl
      rw [hstep, ih]
      by_cases hA : ∃ t2 ∈ trips, add_days_to_date go_date t2 ∈ dates ∧
          g ∈ gl ∧ r ∈ (dictLookup (add_days_to_date go_date t2) ret).getD []
      · rw [if_pos hA, if_pos]
        obtain ⟨t2, ht2, h2⟩ := hA
        exact ⟨t2, List.mem_cons_of_mem _ ht2, h2⟩
      · rw [if_neg hA]
        by_cases hin : add_days_to_date go_date t ∈ dates
        swap
        · rw [if_pos hin, if_neg]
          intro ⟨t2, ht2, h2⟩
          rcases List.mem_cons.mp ht2 with ht2 | ht2
          · subst ht2; exact hin h2.1
          · exact hA ⟨t2, ht2, h2⟩
        · rw [if_neg (not_not_intro hin)]
          cases hlk : dictLookup (add_days_to_date go_date t) ret with
          | none =>
              rw [if_neg]
              intro ⟨t2, ht2, h2⟩
              rcases List.mem_cons.mp ht2 with ht2 | ht2
              · subst ht2
                rw [hlk] at h2
                simp at h2
              · exact hA ⟨t2, ht2, h2⟩
          | some rl =>
              rw [addPairCombos_lookup]
              by_cases hB : g ∈ gl ∧ r ∈ rl
              · rw [if_pos hB, if_pos]
                exact ⟨t, List.mem_cons_self .., hin, hB.1,
                  by rw [hlk]; exact hB.2⟩
              · rw [if_neg hB, if_neg]
                intro ⟨t2, ht2, h2⟩
                rcases List.mem_cons.mp ht2 with ht2 | ht2
                · subst ht2
                  rw [hlk] at h2
                  exact hB ⟨h2.2.1, h2.2.2⟩
                · exact hA ⟨t2, ht2, h2⟩

theorem possible_train_combinations_lookup (g r : Train)
    (go ret : List (String × List Train)) (trips : List ℤ)
    (dates : List String) :
    ∀ (processed : List String) (combos : List ((Train × Train) × ℚ)),
      dictLookup (g, r) (processed.foldl (fun combinations go_date =>
          match dictLookup go_date go with
          | none => combinations
          | some go_trains =>
              addTripDayCombos go_date ret dates go_trains trips combinations)
        combos) =
        if ∃ d ∈ processed, g ∈ (dictLookup d go).getD [] ∧
            ∃ t ∈ trips, add_days_to_date d t ∈ dates ∧
              r ∈ (dictLookup (add_days_to_date d t) ret).getD []
        then some (g.price + r.price)
        else dictLookup (g, r) combos := by
  intro processed
  induction processed with
  | nil => intro combos; simp
  | cons d ds ih =>
      intro combos
      have hstep : (d :: ds).foldl (fun combinations go_date =>
          match dictLookup go_date go with
          | none => combinations
          | some go_trains =>
              addTripDayCombos go_date ret dates go_trains trips combinations)
          combos =
        ds.foldl (fun combinations go_date =>
          match dictLookup go_date go with
          | none => combinations
          | some go_trains =>
              addTripDayCombos go_date ret dates go_trains trips combinations)
          (match dictLookup d go with
           | none => combos
           | some go_trains =>
               addTripDayCombos d ret dates go_trains trips combos) := rfl
      rw [hstep, ih]
      by_cases hA : ∃ d2 ∈ ds, g ∈ (dictLookup d2 go).getD [] ∧
          ∃ t ∈ trips, add_days_to_date d2 t ∈ dates ∧
            r ∈ (dictLookup (add_days_to_date d2 t) ret).getD []
      · rw [if_pos hA, if_pos]
        obtain ⟨d2, hd2, h2⟩ := hA
        exact ⟨d2, List.mem_cons_of_mem _ hd2, h2⟩
      · rw [if_neg hA]
        cases hlk : dictLookup d go with
        | none =>
            rw [if_neg]
            intro ⟨d2, hd2, h2⟩
            rcases List.mem_cons.mp hd2 with hd2 | hd2
            · subst hd2
              rw [hlk] at h2
              simp at h2
            · exact hA ⟨d2, hd2, h2⟩
        | some gl =>
            rw [addTripDayCombos_lookup]
            by_cases hB : ∃ t ∈ trips, add_days_to_date d t ∈ dates ∧
                g ∈ gl ∧ r ∈ (dictLookup (add_days_to_date d t) ret).getD []
            · rw [if_pos hB, if_pos]
              obtain ⟨t, ht, h1, h2, h3⟩ := hB
              exact ⟨d, List.mem_cons_self ..,
                by rw [hlk]; exact h2, t, ht, h1, h3⟩
            · rw [if_neg hB, if_neg]
              intro ⟨d2, hd2, h2, t, ht, h3, h4⟩
              rcases List.mem_cons.mp hd2 with hd2 | hd2
              · subst hd2
                rw [hlk] at h2
                exact hB ⟨t, ht, h3, h2, h4⟩
              · exact hA ⟨d2, hd2, h2, t, ht, h3, h4⟩

theorem mem_lookup_getD_iff {κ α : Type} [DecidableEq κ] (k : κ)
    (l : List (κ × List α)) (x : α) :
    x ∈ (dictLookup k l).getD [] ↔ ∃ v, dictLookup k l = some v ∧ x ∈ v := by
  cases h : dictLookup k l <;> simp

/-- The combinations dict contains a pair exactly when some go date of
the window carries the go train and some trip length leads to a return
date inside the window carrying the return train; the stored value is
the summed price. -/
theorem possible_train_combinations_mem
    (go ret : List (String × List Train)) (dates : List String)
    (trips : List ℤ) (g r : Train) (p : ℚ) :
    dictLookup (g, r) (possible_train_combinations go ret dates trips) =
        some p ↔
      (∃ d ∈ dates, (∃ gl, dictLookup d go = some gl ∧ g ∈ gl) ∧
        ∃ t ∈ trips, add_days_to_date d t ∈ dates ∧
          ∃ rl, dictLookup (add_days_to_date d t) ret = some rl ∧ r ∈ rl) ∧
      p = g.price + r.price := by
  have hch := possible_train_combinations_lookup g r go ret trips dates dates []
  have hiff : (∃ d ∈ dates, g ∈ (dictLookup d go).getD [] ∧
      ∃ t ∈ trips, add_days_to_date d t ∈ dates ∧
        r ∈ (dictLookup (add_days_to_date d t) ret).getD []) ↔
      (∃ d ∈ dates, (∃ gl, dictLookup d go = some gl ∧ g ∈ gl) ∧
        ∃ t ∈ trips, add_days_to_date d t ∈ dates ∧
          ∃ rl, dictLookup (add_days_to_date d t) ret = some rl ∧ r ∈ rl) := by
    simp only [mem_lookup_getD_iff]
  rw [possible_train_combinations, hch]
  by_cases hC : ∃ d ∈ dates, g ∈ (dictLookup d go).getD [] ∧
      ∃ t ∈ trips, add_days_to_date d t ∈ dates ∧
        r ∈ (dictLookup (add_days_to_date d t) ret).getD []
  · rw [if_pos hC]
    simp only [Option.some.injEq]
    constructor
    · intro hp
      exact ⟨hiff.mp hC, hp.symm⟩
    · intro ⟨_, hp⟩
      exact hp.symm
  · rw [if_neg hC]
    simp only [dictLookup]
    constructor
    · intro h
      cases h
    · intro ⟨hC2, _⟩
      exact absurd (hiff.mpr hC2) hC

/-- C5: `possible_train_combinations` contains a pair (g, r) exactly
when g is a go train of some date d of the travel window and, for some
configured trip length t, the date d + t lies inside the window and r
is a return train of that date; the stored price is the sum of the two
leg prices, and the dict keying collapses duplicate (g, r) pairs to
one entry. With go trains only on 01/05/2024 and return trains only on
05/05/2024, trip-length set {3} yields no pairs, and trip-length set
{4} yields exactly the cross product of the two record lists. -/
theorem possible_train_combinations_spec :
    (∀ (go ret : List (String × List Train)) (dates : List String)
        (trips : List ℤ) (g r : Train) (p : ℚ),
        dictLookup (g, r) (possible_train_combinations go ret dates trips) =
            some p ↔
          (∃ d ∈ dates, (∃ gl, dictLookup d go = some gl ∧ g ∈ gl) ∧
            ∃ t ∈ trips, add_days_to_date d t ∈ dates ∧
              ∃ rl, dictLookup (add_days_to_date d t) ret = some rl ∧
                r ∈ rl) ∧
          p = g.price + r.price) ∧
    (∀ gs rs : List Train,
        possible_train_combinations [("01/05/2024", gs)]
          [("05/05/2024", rs)]
          ["01/05/2024", "02/05/2024", "03/05/2024", "04/05/2024",
            "05/05/2024"] [3] = []) ∧
    (∀ (gs rs : List Train) (g r : Train) (p : ℚ),
        dictLookup (g, r)
            (possible_train_combinations [("01/05/2024", gs)]
              [("05/05/2024", rs)]
              ["01/05/2024", "02/05/2024", "03/05/2024", "04/05/2024",
                "05/05/2024"] [4]) = some p ↔
          g ∈ gs ∧ r ∈ rs ∧ p = g.price + r.price) := by
  refine ⟨possible_train_combinations_mem, ?_, ?_⟩
  · intro gs rs
    have h3 : add_days_to_date "01/05/2024" 3 = "04/05/2024" := by decide
    simp [possible_train_combinations, addTripDayCombos, dictLookup, h3]
  · intro gs rs g r p
    have h4 : add_days_to_date "01/05/2024" 4 = "05/05/2024" := by decide
    rw [possible_train_combinations_mem]
    simp [dictLookup, h4]
    tauto

/-! ## Decimal-string lemmas for the date round trips -/

theorem digitChar_isDigit {v : ℕ} (h : v < 10) :
    isDigitChar (digitChar v) = true := by
  interval_cases v <;> decide

theorem digitChar_val {v : ℕ} (h : v < 10) : digitVal (digitChar v) = v := by
  interval_cases v <;> decide

theorem natToDigitsAux_fuel :
    ∀ (n f1 f2 : ℕ), n < f1 → n < f2 →
      natToDigitsAux f1 n = natToDigitsAux f2 n := by
  intro n
  induction n using Nat.strong_induction_on with
  | _ n ih =>
      intro f1 f2 h1 h2
      cases f1 with
      | zero => omega
      | succ f1 =>
          cases f2 with
          | zero => omega
          | succ f2 =>
              simp only [natToDigitsAux]
              by_cases h : n < 10
              · simp [h]
              · simp only [h, if_false]
                congr 1
                exact ih (n / 10) (by omega) f1 f2 (by omega) (by omega)

theorem natToDigits_lt {n : ℕ} (h : n < 10) : natToDigits n = [digitChar n] := by
  simp [natToDigits, natToDigitsAux, h]

theorem natToDigits_ge {n : ℕ} (h : 10 ≤ n) :
    natToDigits n = natToDigits (n / 10) ++ [digitChar (n % 10)] := by
  rw [natToDigits, natToDigits, natToDigitsAux]
  simp only [show ¬n < 10 by omega, if_false]
  congr 1
  exact natToDigitsAux_fuel (n / 10) n (n / 10 + 1) (by omega) (by omega)

theorem natToDigits_length_pos (n : ℕ) : 0 < (natToDigits n).length := by
  by_cases h : n < 10
  · simp [natToDigits_lt h]
  · rw [natToDigits_ge (by omega)]
    simp

theorem natToDigits_length_le :
    ∀ (n k : ℕ), n < 10 ^ k → 0 < k → (natToDigits n).length ≤ k := by
  intro n
  induction n using Nat.strong_induction_on with
  | _ n ih =>
      intro k hn hk
      by_cases h : n < 10
      · simp [natToDigits_lt h]; omega
      · rw [natToDigits_ge (by omega)]
        have hk2 : 2 ≤ k := by
          by_contra hc
          have : k = 1 := by omega
          subst this
          simp at hn
          omega
        have := ih (n / 10) (by omega) (k - 1)
          (by
            have hp : 10 ^ k = 10 ^ (k - 1) * 10 := by
              conv =>
                lhs
                rw [show k = k - 1 + 1 by omega]
              rw [pow_succ]
            omega)
          (by omega)
        simp only [List.length_append, List.length_cons, List.length_nil]
        omega

theorem natToDigits_length_ge :
    ∀ (n k : ℕ), 10 ^ k ≤ n → k + 1 ≤ (natToDigits n).length := by
  intro n
  induction n using Nat.strong_induction_on with
  | _ n ih =>
      intro k hn
      cases k with
      | zero => simpa using natToDigits_length_pos n
      | succ k =>
          have h10 : 10 ≤ n := by
            have h1 : (10 : ℕ) ^ 1 ≤ 10 ^ (k + 1) :=
              Nat.pow_le_pow_right (by omega) (by omega)
            simp at h1
            omega
          rw [natToDigits_ge h10]
          have hdiv : 10 ^ k ≤ n / 10 := by
            rw [pow_succ] at hn
            omega
          have := ih (n / 10) (by omega) k hdiv
          simp only [List.length_append, List.length_cons, List.length_nil]
          omega

theorem foldDigits_append (a : ℕ) :
    ∀ (l1 l2 : List Char),
      foldDigits a (l1 ++ l2) =
        (foldDigits a l1).bind (fun b => foldDigits b l2) := by
  intro l1
  induction l1 generalizing a with
  | nil => intro l2; simp [foldDigits]
  | cons c cs ih =>
      intro l2
      simp only [List.cons_append, foldDigits]
      by_cases h : isDigitChar c
      · simp [h, ih]
      · simp [h]

theorem foldDigits_natToDigits :
    ∀ (n a : ℕ),
      foldDigits a (natToDigits n) =
        some (a * 10 ^ (natToDigits n).length + n) := by
  intro n
  induction n using Nat.strong_induction_on with
  | _ n ih =>
      intro a
      by_cases h : n < 10
      · rw [natToDigits_lt h]
        simp [foldDigits, digitChar_isDigit h, digitChar_val h]
      · rw [natToDigits_ge (by omega)]
        rw [foldDigits_append]
        rw [ih (n / 10) (by omega) a]
        have hd : n % 10 < 10 := Nat.mod_lt _ (by omega)
        simp only [Option.some_bind, foldDigits, digitChar_isDigit hd,
          if_true, digitChar_val hd, List.length_append, List.length_cons,
          List.length_nil, Nat.zero_add]
        congr 1
        calc (a * 10 ^ (natToDigits (n / 10)).length + n / 10) * 10 + n % 10
            = a * (10 ^ (natToDigits (n / 10)).length * 10) +
                (n / 10 * 10 + n % 10) := by ring
          _ = a * 10 ^ ((natToDigits (n / 10)).length + 1) + n := by
                rw [pow_succ]
                omega

theorem foldDigits_replicate_zero (k : ℕ) :
    ∀ (a : ℕ), foldDigits a (List.replicate k '0') = some (a * 10 ^ k) := by
  induction k with
  | zero => intro a; simp [foldDigits]
  | succ k ih =>
      intro a
      rw [List.replicate_succ]
      show foldDigits a ('0' :: List.replicate k '0') = _
      simp only [foldDigits, show isDigitChar '0' = true by decide, if_true,
        show digitVal '0' = 0 by decide, Nat.add_zero]
      rw [ih (a * 10)]
      congr 1
      ring

theorem listIntVal_pad_digits (k n : ℕ) :
    listIntVal (List.replicate k '0' ++ natToDigits n) = some n := by
  have hne : List.replicate k '0' ++ natToDigits n ≠ [] := by
    intro h
    have h2 := (List.append_eq_nil.mp h).2
    have hpos := natToDigits_length_pos n
    rw [h2] at hpos
    simp at hpos
  have hfold : foldDigits 0 (List.replicate k '0' ++ natToDigits n) =
      some n := by
    rw [foldDigits_append, foldDigits_replicate_zero]
    simp [foldDigits_natToDigits n 0]
  cases hl : List.replicate k '0' ++ natToDigits n with
  | nil => exact absurd hl hne
  | cons c cs =>
      rw [← hl]
      unfold listIntVal
      rw [hl] at hfold ⊢
      exact hfold

theorem daysInMonth_le (y m : ℕ) : daysInMonth y m ≤ 31 := by
  unfold daysInMonth
  split
  · split <;> omega
  · split <;> omega

theorem isValidDate_bounds {y m d : ℕ} (h : isValidDate ⟨y, m, d⟩ = true) :
    1 ≤ y ∧ y ≤ 9999 ∧ 1 ≤ m ∧ m ≤ 12 ∧ 1 ≤ d ∧ d ≤ 31 := by
  have hdm := daysInMonth_le y m
  simp [isValidDate] at h
  omega

theorem zfill_natToStr_two_length {n : ℕ} (h : n < 100) :
    ((zfill (natToStr n) 2).data).length = 2 := by
  show (List.replicate (2 - (natToStr n).length) '0' ++
      natToDigits n).length = 2
  have h1 := natToDigits_length_pos n
  have h2 := natToDigits_length_le n 2 (by omega) (by omega)
  have h3 : (natToStr n).length = (natToDigits n).length := rfl
  simp only [List.length_append, List.length_replicate, h3]
  omega

theorem listIntVal_zfill_two {n : ℕ} :
    listIntVal ((zfill (natToStr n) 2).data) = some n := by
  show listIntVal (List.replicate (2 - (natToStr n).length) '0' ++
      natToDigits n) = some n
  exact listIntVal_pad_digits _ n

theorem listIntVal_natToDigits (n : ℕ) :
    listIntVal (natToDigits n) = some n := by
  have := listIntVal_pad_digits 0 n
  simpa using this

/-- Parsing the formatted rendering of a valid date recovers the date:
the core of both round-trip directions. -/
theorem string_date_parse_format (y m d : ℕ)
    (hv : isValidDate ⟨y, m, d⟩ = true) :
    string_date_to_date_object
        (zfill (natToStr d) 2 ++ "/" ++ zfill (natToStr m) 2 ++ "/" ++
          natToStr y) = some ⟨y, m, d⟩ := by
  obtain ⟨hy1, hy2, hm1, hm2, hd1, hd2⟩ := isValidDate_bounds hv
  have hD2 : ((zfill (natToStr d) 2).data).length = 2 :=
    zfill_natToStr_two_length (by omega)
  have hM2 : ((zfill (natToStr m) 2).data).length = 2 :=
    zfill_natToStr_two_length (by omega)
  have hY4 : (natToDigits y).length ≤ 4 :=
    natToDigits_length_le y 4 (by omega) (by omega)
  have hdata :
      (zfill (natToStr d) 2 ++ "/" ++ zfill (natToStr m) 2 ++ "/" ++
        natToStr y).data =
      (zfill (natToStr d) 2).data ++ ['/'] ++ (zfill (natToStr m) 2).data ++
        ['/'] ++ natToDigits y := by
    simp only [String.data_append]
    rfl
  have h1 : pyIntOfStr (pySlice
      (zfill (natToStr d) 2 ++ "/" ++ zfill (natToStr m) 2 ++ "/" ++
        natToStr y) 6 10) = some y := by
    show listIntVal ((((zfill (natToStr d) 2 ++ "/" ++
      zfill (natToStr m) 2 ++ "/" ++ natToStr y).data).drop 6).take (10 - 6))
      = some y
    rw [hdata]
    rw [List.drop_left' (by
      simp only [List.length_append, List.length_cons, List.length_nil, hD2,
        hM2])]
    rw [List.take_of_length_le (by omega)]
    exact listIntVal_natToDigits y
  have h2 : pyIntOfStr (pySlice
      (zfill (natToStr d) 2 ++ "/" ++ zfill (natToStr m) 2 ++ "/" ++
        natToStr y) 3 5) = some m := by
    show listIntVal ((((zfill (natToStr d) 2 ++ "/" ++
      zfill (natToStr m) 2 ++ "/" ++ natToStr y).data).drop 3).take (5 - 3))
      = some m
    rw [hdata]
    have hregroup :
        (zfill (natToStr d) 2).data ++ ['/'] ++
            (zfill (natToStr m) 2).data ++ ['/'] ++ natToDigits y =
          ((zfill (natToStr d) 2).data ++ ['/']) ++
            ((zfill (natToStr m) 2).data ++ (['/'] ++ natToDigits y)) := by
      simp [List.append_assoc]
    rw [hregroup]
    rw [List.drop_left' (by
      simp only [List.length_append, List.length_cons, List.length_nil, hD2])]
    rw [List.take_left' hM2]
    exact listIntVal_zfill_two
  have h3 : pyIntOfStr (pySlice
      (zfill (natToStr d) 2 ++ "/" ++ zfill (natToStr m) 2 ++ "/" ++
        natToStr y) 0 2) = some d := by
    show listIntVal ((((zfill (natToStr d) 2 ++ "/" ++
      zfill (natToStr m) 2 ++ "/" ++ natToStr y).data).drop 0).take (2 - 0))
      = some d
    rw [hdata, List.drop_zero]
    have hregroup :
        (zfill (natToStr d) 2).data ++ ['/'] ++
            (zfill (natToStr m) 2).data ++ ['/'] ++ natToDigits y =
          (zfill (natToStr d) 2).data ++
            (['/'] ++ ((zfill (natToStr m) 2).data ++
              (['/'] ++ natToDigits y))) := by
      simp [List.append_assoc]
    rw [hregroup]
    rw [List.take_left' hD2]
    exact listIntVal_zfill_two
  rw [string_date_to_date_object]
  rw [h1, h2, h3]
  simp [hv]

theorem zfill_four_eq {y : ℕ} (h1 : 1000 ≤ y) (h2 : y ≤ 9999) :
    zfill (natToStr y) 4 = natToStr y := by
  have hge := natToDigits_length_ge y 3 (by omega)
  have hlen : (natToStr y).length = (natToDigits y).length := rfl
  unfold zfill
  rw [show 4 - (natToStr y).length = 0 from by omega]
  simp

/-- C9 counterexample: `"01/01/0999"` is a valid zero-padded
`DD/MM/YYYY` string (the padded rendering of the valid date
0999-01-01), yet formatting its parse yields `"01/01/999"`, a
different string — the year is printed without zero padding. -/
theorem date_conversions_roundtrip_counterexample :
    "01/01/0999" =
        zfill (natToStr 1) 2 ++ "/" ++ zfill (natToStr 1) 2 ++ "/" ++
          zfill (natToStr 999) 4 ∧
      isValidDate ⟨999, 1, 1⟩ = true ∧
      (string_date_to_date_object "01/01/0999").map
        date_object_to_string_date = some "01/01/999" ∧
      "01/01/999" ≠ "01/01/0999" := by decide

/-- C9 (amended): the two date conversions are mutually inverse once
the year field has no leading zero. For every valid date object whose
year has four digits, parsing its formatted rendering returns the same
object; and for every valid zero-padded `DD/MM/YYYY` string whose year
field is at least 1000, formatting its parse returns the same string. -/
theorem date_conversions_roundtrip (d : DateObj)
    (hd : isValidDate d = true) (hy : 1000 ≤ d.year)
    (y m dd : ℕ) (s : String) (hv : isValidDate ⟨y, m, dd⟩ = true)
    (hy2 : 1000 ≤ y)
    (hs : s = zfill (natToStr dd) 2 ++ "/" ++ zfill (natToStr m) 2 ++ "/" ++
      zfill (natToStr y) 4) :
    string_date_to_date_object (date_object_to_string_date d) = some d ∧
      (string_date_to_date_object s).map date_object_to_string_date =
        some s := by
  obtain ⟨yy, mm, day⟩ := d
  constructor
  · exact string_date_parse_format yy mm day hd
  · obtain ⟨h1, h9, _⟩ := isValidDate_bounds hv
    rw [hs, zfill_four_eq hy2 h9]
    rw [string_date_parse_format y m dd hv]
    rfl

/-- Closed instance of C9 (amended) at the date 2024-05-01 and the
string `"05/05/2024"`. -/
theorem date_conversions_roundtrip_witness :
    string_date_to_date_object
        (date_object_to_string_date ⟨2024, 5, 1⟩) = some ⟨2024, 5, 1⟩ ∧
      (string_date_to_date_object "05/05/2024").map
        date_object_to_string_date = some "05/05/2024" :=
  date_conversions_roundtrip ⟨2024, 5, 1⟩ (by decide) (by decide)
    2024 5 5 "05/05/2024" (by decide) (by decide) (by decide)

end HsTrain
